import Mathlib

/-!
Verification of the GrayNote core against its source.

Part 1: the reconciliation model (src/utils/storage.ts).
An `EntrySet` is a JS object keyed by entry id; we model it as an
association list in insertion order, with JS property read/write
(`findEntry` / `setEntry`) as the primitive operations.
-/

/-- DiaryEntry (src/types.ts): one journal entry. `content` is the serialized
document blob, `updatedAt` is integer epoch millis. -/
structure DiaryEntry where
  id : String
  date : String
  content : String
  tags : List String
  updatedAt : Nat
deriving DecidableEq

/-- An EntrySet: `Record<string, DiaryEntry>` as an association list in
insertion order (JS objects preserve insertion order of string keys). -/
abbrev EntrySet := List (String × DiaryEntry)

/-- JS property read `entries[k]`. -/
def findEntry (m : EntrySet) (k : String) : Option DiaryEntry :=
  (m.find? (fun p => p.1 == k)).map Prod.snd

/-- JS property write `entries[k] = v`: replace in place if the key is
present, else append. -/
def setEntry (m : EntrySet) (k : String) (v : DiaryEntry) : EntrySet :=
  match m with
  | [] => [(k, v)]
  | p :: rest => if p.1 == k then (k, v) :: rest else p :: setEntry rest k v

/-- Body of the `remoteEntries.forEach` loop of fetchAndMergeEntries
(src/utils/storage.ts lines 99-105): look the remote entry's id up in the
accumulator `merged`; replace when absent or when the remote entry is
strictly newer. -/
def mergeStep (merged : EntrySet) (r : DiaryEntry) : EntrySet :=
  match findEntry merged r.id with
  | none => setEntry merged r.id r
  | some l => if l.updatedAt < r.updatedAt then setEntry merged r.id r else merged

/-- The merge of fetchAndMergeEntries (src/utils/storage.ts lines 96-107):
`const merged = { ...localEntries }` followed by the forEach loop over the
remote entries. -/
def mergeEntries (localEntries : EntrySet) (remote : List DiaryEntry) : EntrySet :=
  remote.foldl mergeStep localEntries

/-- A row of the remote `entries` table as the Supabase client returns it
(src/utils/storage.ts mapFromSupabase): `tags` and `updated_at` may be
absent or null (`none`); `updated_at` may also be 0, which is falsy in JS. -/
structure SupabaseRow where
  id : String
  date : String
  content : String
  tags : Option (List String)
  updated_at : Option Nat
deriving DecidableEq

/-- One row of mapFromSupabase (src/utils/storage.ts lines 62-69):
`tags: row.tags || []`, `updatedAt: row.updated_at || Date.now()` — a falsy
`updated_at` (absent, null, or 0) falls back to the current time `now`. -/
def mapRow (now : Nat) (row : SupabaseRow) : DiaryEntry :=
  { id := row.id
    date := row.date
    content := row.content
    tags := row.tags.getD []
    updatedAt :=
      match row.updated_at with
      | none => now
      | some 0 => now
      | some t => t }

/-- mapFromSupabase (src/utils/storage.ts lines 60-72): build a
`Record<string, DiaryEntry>` keyed by `row.id` from the fetched rows. -/
def mapFromSupabase (now : Nat) (data : List SupabaseRow) : EntrySet :=
  data.foldl (fun acc row => setEntry acc row.id (mapRow now row)) []

/-- Sample local EntrySet used by the C1 witness: entries A (updatedAt 100),
C (updatedAt 100) and D (updatedAt 7). -/
def localSample : EntrySet :=
  [("A", ⟨"A", "2024-01-01", "local-a", [], 100⟩),
   ("C", ⟨"C", "2024-01-01", "local-c", [], 100⟩),
   ("D", ⟨"D", "2024-01-01", "local-d", [], 7⟩)]

/-- Sample remote list used by the C1 witness: A is strictly newer than the
local copy, C carries the same updatedAt (a tie). -/
def remoteSample : List DiaryEntry :=
  [⟨"A", "2024-01-02", "remote-a", [], 200⟩,
   ⟨"C", "2024-01-02", "remote-c", [], 100⟩]

/-!
Part 2: the rich document model and the style applicator (src/App.tsx).

The editor surface is a DOM tree of text nodes and elements. applyFontSize's
range branch runs after the browser's `execCommand('fontName', ...)` has
normalized the selection: the selected text, and only it, sits inside marker
elements carrying the temporary font name (text runs covered in part were
split at the range boundary by the browser). We model an element by the data
the code inspects: its tag name, its inline style font-size, its FONT `size`
attribute, and whether it carries the temporary marker. A single execCommand
never nests one marker inside another.
-/

/-- The data of a DOM element that applyFontSize reads and writes: tag name,
`el.style.fontSize` in px, the FONT tag `size` attribute, and whether the
element carries the temporary marker font name placed by execCommand. -/
structure ElemInfo where
  tag : String
  styleFontSize : Option Nat
  sizeAttr : Option Nat
  marker : Bool
deriving DecidableEq

/-- A DOM node of the editor surface: a text node or an element. -/
inductive DomNode where
  | text (s : List Char)
  | elem (info : ElemInfo) (children : List DomNode)

/-- The clean span applyFontSize creates (src/App.tsx lines 238-240):
`span.style.fontSize = size + "px"`. -/
def spanInfo (size : Nat) : ElemInfo :=
  { tag := "SPAN", styleFontSize := some size, sizeAttr := none, marker := false }

mutual
/-- cleanChildren (src/App.tsx lines 244-259): clear a set inline
`style.fontSize`, remove a FONT tag `size` attribute, and recurse into the
children. Text nodes (nodeType 3) are left alone. -/
def cleanNode : DomNode → DomNode
  | .text s => .text s
  | .elem i cs =>
      .elem { i with styleFontSize := none,
                     sizeAttr := if i.tag = "FONT" then none else i.sizeAttr }
        (cleanList cs)
/-- cleanChildren over a child list. -/
def cleanList : List DomNode → List DomNode
  | [] => []
  | c :: cs => cleanNode c :: cleanList cs
end

mutual
/-- The marker-replacement loop of applyFontSize's range branch (src/App.tsx
lines 235-272): every marker element is replaced by the clean span carrying
`fontSize = size`, its children are moved into the span after cleanChildren
has stripped their font sizes; everything outside markers is untouched.
Markers from one execCommand are never nested, so the loop meets no marker
inside a marker. -/
def applyMarked (size : Nat) : DomNode → DomNode
  | .text s => .text s
  | .elem i cs =>
      if i.marker then .elem (spanInfo size) (cleanList cs)
      else .elem i (applyMarkedList size cs)
/-- The marker-replacement loop over a child list. -/
def applyMarkedList (size : Nat) : List DomNode → List DomNode
  | [] => []
  | c :: cs => applyMarked size c :: applyMarkedList size cs
end

/-- The legacy FONT `size` attribute (1-7) in pixels, as browsers render it. -/
def legacyFontPx : Nat → Nat
  | 0 => 10
  | 1 => 10
  | 2 => 13
  | 3 => 16
  | 4 => 18
  | 5 => 24
  | 6 => 32
  | _ => 48

/-- The font size an element hands down to its content: an inline style
font-size wins, else a FONT tag `size` attribute, else the inherited size. -/
def effSize (inh : Nat) (i : ElemInfo) : Nat :=
  match i.styleFontSize with
  | some s => s
  | none =>
    match i.sizeAttr with
    | some k => if i.tag = "FONT" then legacyFontPx k else inh
    | none => inh

mutual
/-- Rendering: each character of the document paired with the font size it
renders at, given the inherited size `inh` (innermost override wins). -/
def renderNode (inh : Nat) : DomNode → List (Char × Nat)
  | .text s => s.map (fun c => (c, inh))
  | .elem i cs => renderList (effSize inh i) cs
/-- Rendering of a node list. -/
def renderList (inh : Nat) : List DomNode → List (Char × Nat)
  | [] => []
  | c :: cs => renderNode inh c ++ renderList inh cs
end

mutual
/-- The plain text of the document: the concatenation of all leaf runs. -/
def plainNode : DomNode → List Char
  | .text s => s
  | .elem _ cs => plainList cs
/-- Plain text of a node list. -/
def plainList : List DomNode → List Char
  | [] => []
  | c :: cs => plainNode c ++ plainList cs
end

mutual
/-- The selection mask: one Bool per character, true exactly for the
characters sitting inside a marker element (the normalized selection);
`b` says whether we are already inside a marker. -/
def selMaskNode (b : Bool) : DomNode → List Bool
  | .text s => s.map (fun _ => b)
  | .elem i cs => selMaskList (b || i.marker) cs
/-- Selection mask of a node list. -/
def selMaskList (b : Bool) : List DomNode → List Bool
  | [] => []
  | c :: cs => selMaskNode b c ++ selMaskList b cs
end

/-- An element carries no font-size information of its own: no inline style
font-size, and no FONT tag size attribute. -/
def infoSizeFree (i : ElemInfo) : Bool :=
  i.styleFontSize == none && (!(i.tag == "FONT") || i.sizeAttr == none)

mutual
/-- No node of the subtree carries any font-size information. -/
def sizeFreeNode : DomNode → Bool
  | .text _ => true
  | .elem i cs => infoSizeFree i && sizeFreeList cs
/-- sizeFreeNode over a node list. -/
def sizeFreeList : List DomNode → Bool
  | [] => true
  | c :: cs => sizeFreeNode c && sizeFreeList cs
end

mutual
/-- No marker element sits inside another marker element (`b` says whether we
are already inside a marker) — the shape a single execCommand produces. -/
def noNestedNode (b : Bool) : DomNode → Bool
  | .text _ => true
  | .elem i cs => !(b && i.marker) && noNestedList (b || i.marker) cs
/-- noNestedNode over a node list. -/
def noNestedList (b : Bool) : List DomNode → Bool
  | [] => true
  | c :: cs => noNestedNode b c && noNestedList b cs
end

/-- What the claimed postcondition of a range application does to one
rendered character: give it the new size when it is inside the selection,
keep its old size otherwise. -/
def restyleAt (size : Nat) (p : Char × Nat) (b : Bool) : Char × Nat :=
  (p.1, if b then size else p.2)

/-- The C2 witness document: "Hello " outside the selection, "world" wrapped
in the execCommand marker — the normalized selection of the spec's
"Hello world" example. -/
def helloDoc : List DomNode :=
  [DomNode.text "Hello ".toList,
   DomNode.elem { tag := "FONT", styleFontSize := none, sizeAttr := none, marker := true }
     [DomNode.text "world".toList]]

/-- The C4 witness marker content: "world" previously styled at 18px (the
marker sits inside a size-14 container, so the new span's 24 is what the
cleaned children inherit). -/
def worldStyled18 : DomNode :=
  DomNode.elem { tag := "SPAN", styleFontSize := some 18, sizeAttr := none, marker := false }
    [DomNode.text "world".toList]

/-!
Part 3: settings, the collapsed branch of applyFontSize, the top-level
applyFontSize guard, the sync circuit breaker, and the autosave deadline.
-/

/-- AppSettings (src/types.ts): the process-wide settings record. -/
structure AppSettings where
  darkMode : Bool
  editorFont : String
  editorFontSize : Nat
  editorColor : String
  sidebarOpen : Bool
deriving DecidableEq

/-- The loadSettings defaults (src/utils/storage.ts lines 41-47). -/
def defaultSettings : AppSettings :=
  { darkMode := false
    editorFont := "inter"
    editorFontSize := 16
    editorColor := "#111827"
    sidebarOpen := true }

/-- updateSetting (src/App.tsx lines 352-369) at the editorFontSize key — the
only key applyFontSize uses. It is not the darkMode key, so the editor-color
swap branch is not taken and the field is simply replaced. -/
def updateSettingFontSize (s : AppSettings) (v : Nat) : AppSettings :=
  { s with editorFontSize := v }

/-- The zero-width space the collapsed branch inserts (`&#8203;`,
src/App.tsx line 290). -/
def zwsp : Char := '\u200B'

/-- Editor state at a collapsed selection as the collapsed branch sees it:
the caret sits at a boundary between top-level editor nodes, with the content
before and after it. (`range.insertNode` splits a text node at a mid-text
caret, so a node-boundary caret is the general case once that split is
taken as already applied.) -/
structure CollapsedEditor where
  settings : AppSettings
  selectionFontSize : Option Nat
  before : List DomNode
  after : List DomNode

/-- State after the collapsed branch: the caret now sits inside a span
(`focusStyle` is its inline font-size) whose text is
`focusLeft ++ focusRight`, with the caret between the two parts. -/
structure CollapsedApplied where
  settings : AppSettings
  selectionFontSize : Option Nat
  before : List DomNode
  focusStyle : Option Nat
  focusLeft : List Char
  focusRight : List Char
  after : List DomNode

/-- The collapsed ("NO SELECTION") branch of applyFontSize (src/App.tsx
lines 277-304): update the editorFontSize setting, report the size for the
toolbar, insert `span(style.fontSize = size)` containing a zero-width space
at the caret (`deleteContents` is a no-op on a collapsed range), and place
the caret inside the span right after the zero-width space
(`range.setStart(span.childNodes[0], 1)`). -/
def applyFontSizeCollapsed (size : Nat) (st : CollapsedEditor) : CollapsedApplied :=
  { settings := updateSettingFontSize st.settings size
    selectionFontSize := some size
    before := st.before
    focusStyle := some size
    focusLeft := [zwsp]
    focusRight := []
    after := st.after }

/-- Typing one character at the caret: the character lands inside the focus
span, at the caret position. -/
def typeChar (c : Char) (st : CollapsedApplied) : CollapsedApplied :=
  { st with focusLeft := st.focusLeft ++ [c] }

/-- The document a CollapsedApplied state denotes:
before ++ the focus span ++ after. -/
def appliedDoc (st : CollapsedApplied) : List DomNode :=
  st.before
    ++ [DomNode.elem { tag := "SPAN", styleFontSize := st.focusStyle,
                       sizeAttr := none, marker := false }
         [DomNode.text (st.focusLeft ++ st.focusRight)]]
    ++ st.after

/-- What applyFontSize observes of `window.getSelection()`: no usable
selection (null, or rangeCount = 0), a collapsed caret, or a range — and for
the latter two whether the selection is anchored inside the editor element.
The code never inspects that last flag. -/
inductive SelObservation where
  | noSelection
  | collapsedSel (inEditor : Bool)
  | rangeSel (inEditor : Bool)
deriving DecidableEq

/-- The state applyFontSize reads and writes: the settings, the toolbar's
selection-size display, whether the editor element is mounted
(`editorRef.current`), the observed selection, the editor document (with
execCommand's markers placed exactly when a range selection sits in the
editor), the top-level caret index for an in-editor collapsed insertion, and
the page content at an outside caret. -/
structure AppState where
  settings : AppSettings
  selectionFontSize : Option Nat
  editorMounted : Bool
  sel : SelObservation
  editorDoc : List DomNode
  caretIdx : Nat
  outsideDoc : List DomNode

/-- The zero-width marker span the collapsed branch inserts. -/
def caretMarkerSpan (size : Nat) : DomNode :=
  DomNode.elem (spanInfo size) [DomNode.text [zwsp]]

/-- applyFontSize (src/App.tsx lines 217-309). Guard: return unchanged when
there is no selection, no range, or no editor element. Range branch: replace
the markers inside the editor (markers land outside the editor when the
selection is anchored there — execCommand on the non-editable outside is a
no-op — so `querySelectorAll` over the editor finds none) and report the
size. Collapsed branch: update the editorFontSize setting and report the
size, then insert the zero-width marker span at the caret, wherever the
caret is — the code performs no in-editor check. -/
def applyFontSizeStep (size : Nat) (st : AppState) : AppState :=
  match st.editorMounted, st.sel with
  | false, _ => st
  | true, SelObservation.noSelection => st
  | true, SelObservation.rangeSel _ =>
      { st with editorDoc := applyMarkedList size st.editorDoc,
                selectionFontSize := some size }
  | true, SelObservation.collapsedSel inEditor =>
      let st1 := { st with settings := updateSettingFontSize st.settings size,
                           selectionFontSize := some size }
      if inEditor then
        { st1 with editorDoc :=
            st.editorDoc.take st.caretIdx
              ++ [caretMarkerSpan size] ++ st.editorDoc.drop st.caretIdx }
      else
        { st1 with outsideDoc := st.outsideDoc ++ [caretMarkerSpan size] }

/-- The C6 counterexample input: the editor is mounted while the live
selection is a collapsed caret anchored outside the editor document
(for example in the page around it), with the default settings. -/
def caretOutsideState : AppState :=
  { settings := defaultSettings
    selectionFontSize := none
    editorMounted := true
    sel := SelObservation.collapsedSel false
    editorDoc := [DomNode.text "Hello".toList]
    caretIdx := 0
    outsideDoc := [] }

/-- The errors the sync helpers distinguish (src/utils/storage.ts): the
table-missing error (message "Could not find the table" or code 42P01),
and any other failure. -/
inductive RemoteError where
  | schemaMissing
  | otherFailure
deriving DecidableEq

/-- One call into the three sync helpers of src/utils/storage.ts, together
with the outcome the remote would give if the call reaches the network:
fetchAndMergeEntries (None = rows come back), upsertEntryToSupabase,
deleteEntryFromSupabase. -/
inductive SyncOp where
  | fetchMerge (err : Option RemoteError)
  | upsertEntry (err : Option RemoteError)
  | deleteEntry (err : Option RemoteError)
deriving DecidableEq

/-- One sync call (src/utils/storage.ts lines 75-150): given the
isSupabaseConfigured flag and the module-level isRemoteSyncDisabled flag,
return the new flag and whether a network request was issued. All three
helpers skip the network when unconfigured or disabled; fetchAndMergeEntries
sets the flag on the table-missing error; upsert and delete never write the
flag, and nothing in the module ever resets it to false. -/
def syncStep (configured disabled : Bool) : SyncOp → Bool × Bool
  | SyncOp.fetchMerge err =>
      if !configured || disabled then (disabled, false)
      else
        match err with
        | some RemoteError.schemaMissing => (true, true)
        | _ => (disabled, true)
  | SyncOp.upsertEntry _ => if !configured || disabled then (disabled, false) else (disabled, true)
  | SyncOp.deleteEntry _ => if !configured || disabled then (disabled, false) else (disabled, true)

/-- A session suffix: fold syncStep over a list of calls, collecting the
per-call network flags. -/
def runSync (configured : Bool) : Bool → List SyncOp → Bool × List Bool
  | d, [] => (d, [])
  | d, op :: ops =>
      let r := syncStep configured d op
      let rest := runSync configured r.1 ops
      (rest.1, r.2 :: rest.2)

/-- handleSave (src/App.tsx lines 127-153): build the new entry for the
current date key — content from the editor, `tags: []`, `updatedAt:
Date.now()` — and write it into the entry set (the local write; the remote
upsert is mirrored separately when a session exists). -/
def handleSave (now : Nat) (key html : String) (entries : EntrySet) : EntrySet :=
  setEntry entries key
    { id := key, date := key, content := html, tags := [], updatedAt := now }

/-- The auto-save debounce deadline (src/App.tsx lines 156-168): read
`editorRef.current?.innerHTML || ""`, compare it with the stored entry's
content (`currentStored?.content || ""`), and call handleSave only when the
editor exists and the content changed. Returns the resulting entry set,
whether the local write was issued, and whether the remote upsert was
attempted (handleSave mirrors to the remote exactly when a session exists). -/
def autosaveDeadline (now : Nat) (key html : String) (mounted : Bool)
    (entries : EntrySet) (hasSession : Bool) : EntrySet × Bool × Bool :=
  let currentHtml := if mounted then html else ""
  let storedContent := ((findEntry entries key).map DiaryEntry.content).getD ""
  if mounted && (currentHtml != storedContent) then
    (handleSave now key currentHtml entries, true, hasSession)
  else
    (entries, false, false)

theorem findEntry_nil (k : String) : findEntry [] k = none := rfl

theorem findEntry_cons (p : String × DiaryEntry) (m : EntrySet) (k : String) :
    findEntry (p :: m) k = if p.1 = k then some p.2 else findEntry m k := by
  by_cases h : p.1 = k <;> simp [findEntry, List.find?_cons, h]

theorem findEntry_setEntry (m : EntrySet) (k k2 : String) (v : DiaryEntry) :
    findEntry (setEntry m k v) k2 = if k = k2 then some v else findEntry m k2 := by
  induction m with
  | nil => by_cases h : k = k2 <;> simp [setEntry, findEntry_cons, findEntry_nil, h]
  | cons p rest ih =>
    by_cases hp : p.1 = k
    · by_cases h : k = k2 <;> simp [setEntry, hp, findEntry_cons, h]
    · have hne : (p.1 == k) = false := by simp [hp]
      have hs : setEntry (p :: rest) k v = p :: setEntry rest k v := by
        simp [setEntry, hne]
      rw [hs, findEntry_cons, ih, findEntry_cons]
      by_cases h : p.1 = k2
      · have hkk : ¬ k = k2 := fun hk => hp (by rw [hk, h])
        simp [h, hkk]
      · simp [h]

theorem mergeEntries_nil (l : EntrySet) : mergeEntries l [] = l := rfl

theorem mergeEntries_cons (l : EntrySet) (e : DiaryEntry) (rest : List DiaryEntry) :
    mergeEntries l (e :: rest) = mergeEntries (mergeStep l e) rest := rfl

theorem findEntry_mergeStep_other (m : EntrySet) (r : DiaryEntry) (k : String)
    (h : r.id ≠ k) : findEntry (mergeStep m r) k = findEntry m k := by
  unfold mergeStep
  cases findEntry m r.id with
  | none => simp [findEntry_setEntry, h]
  | some l =>
    by_cases hlt : l.updatedAt < r.updatedAt <;> simp [hlt, findEntry_setEntry, h]

theorem findEntry_mergeStep_self (m : EntrySet) (r : DiaryEntry) :
    findEntry (mergeStep m r) r.id =
      some (match findEntry m r.id with
            | none => r
            | some l => if l.updatedAt < r.updatedAt then r else l) := by
  unfold mergeStep
  cases h : findEntry m r.id with
  | none => simp [findEntry_setEntry]
  | some l =>
    by_cases hlt : l.updatedAt < r.updatedAt <;> simp [hlt, findEntry_setEntry, h]

theorem findEntry_mergeEntries_not_mem (r : List DiaryEntry) (l : EntrySet) (k : String)
    (h : ∀ e ∈ r, e.id ≠ k) : findEntry (mergeEntries l r) k = findEntry l k := by
  induction r generalizing l with
  | nil => rfl
  | cons e rest ih =>
    rw [mergeEntries_cons, ih _ (fun e2 he2 => h e2 (by simp [he2]))]
    exact findEntry_mergeStep_other l e k (h e (by simp))

theorem findEntry_mergeEntries_mem (r : List DiaryEntry) (l : EntrySet) (e : DiaryEntry)
    (he : e ∈ r) (hn : (r.map DiaryEntry.id).Nodup) :
    findEntry (mergeEntries l r) e.id =
      some (match findEntry l e.id with
            | none => e
            | some le => if le.updatedAt < e.updatedAt then e else le) := by
  induction r generalizing l with
  | nil => cases he
  | cons e0 rest ih =>
    rw [List.map_cons, List.nodup_cons] at hn
    rcases List.mem_cons.mp he with rfl | hmem
    · rw [mergeEntries_cons]
      rw [findEntry_mergeEntries_not_mem rest _ e.id
        (fun e2 he2 hid => hn.1 (hid ▸ List.mem_map_of_mem DiaryEntry.id he2))]
      exact findEntry_mergeStep_self l e
    · have hne : e0.id ≠ e.id := fun hid =>
        hn.1 (hid ▸ List.mem_map_of_mem DiaryEntry.id hmem)
      rw [mergeEntries_cons, ih _ hmem hn.2, findEntry_mergeStep_other l e0 e.id hne]

theorem findEntry_mergeEntries_ge (r : List DiaryEntry) (l : EntrySet) (k : String)
    (v : DiaryEntry) (h : findEntry l k = some v) :
    ∃ w, findEntry (mergeEntries l r) k = some w ∧ v.updatedAt ≤ w.updatedAt := by
  induction r generalizing l v with
  | nil => exact ⟨v, h, Nat.le_refl _⟩
  | cons e rest ih =>
    have hstep : ∃ v2, findEntry (mergeStep l e) k = some v2 ∧ v.updatedAt ≤ v2.updatedAt := by
      by_cases hid : e.id = k
      · subst hid
        rw [findEntry_mergeStep_self, h]
        by_cases hlt : v.updatedAt < e.updatedAt
        · exact ⟨e, by simp [hlt], Nat.le_of_lt hlt⟩
        · exact ⟨v, by simp [hlt], Nat.le_refl _⟩
      · exact ⟨v, by rw [findEntry_mergeStep_other l e k hid, h], Nat.le_refl _⟩
    obtain ⟨v2, hv2, hle⟩ := hstep
    obtain ⟨w, hw, hle2⟩ := ih _ _ hv2
    exact ⟨w, by rw [mergeEntries_cons]; exact hw, Nat.le_trans hle hle2⟩

theorem findEntry_mergeEntries_ge_mem (r : List DiaryEntry) (l : EntrySet)
    (e : DiaryEntry) (he : e ∈ r) :
    ∃ w, findEntry (mergeEntries l r) e.id = some w ∧ e.updatedAt ≤ w.updatedAt := by
  induction r generalizing l with
  | nil => cases he
  | cons e0 rest ih =>
    rcases List.mem_cons.mp he with rfl | hmem
    · have h0 : ∃ w0, findEntry (mergeStep l e) e.id = some w0 ∧ e.updatedAt ≤ w0.updatedAt := by
        rw [findEntry_mergeStep_self]
        cases h : findEntry l e.id with
        | none => exact ⟨e, rfl, Nat.le_refl _⟩
        | some le =>
          by_cases hlt : le.updatedAt < e.updatedAt
          · exact ⟨e, by simp [hlt], Nat.le_refl _⟩
          · exact ⟨le, by simp [hlt], Nat.le_of_not_lt hlt⟩
      obtain ⟨w0, hw0, hle0⟩ := h0
      obtain ⟨w, hw, hle⟩ := findEntry_mergeEntries_ge rest _ e.id w0 hw0
      exact ⟨w, by rw [mergeEntries_cons]; exact hw, Nat.le_trans hle0 hle⟩
    · rw [mergeEntries_cons]
      exact ih _ hmem

theorem mergeEntries_eq_self (m : EntrySet) (r : List DiaryEntry)
    (h : ∀ e ∈ r, ∃ w, findEntry m e.id = some w ∧ e.updatedAt ≤ w.updatedAt) :
    mergeEntries m r = m := by
  induction r with
  | nil => rfl
  | cons e rest ih =>
    obtain ⟨w, hw, hle⟩ := h e (by simp)
    have hstep : mergeStep m e = m := by
      unfold mergeStep
      rw [hw]
      simp [Nat.not_lt.mpr hle]
    rw [mergeEntries_cons, hstep]
    exact ih (fun e2 he2 => h e2 (by simp [he2]))

theorem setEntry_of_findEntry_none (m : EntrySet) (k : String) (v : DiaryEntry)
    (h : findEntry m k = none) : setEntry m k v = m ++ [(k, v)] := by
  induction m with
  | nil => rfl
  | cons p rest ih =>
    rw [findEntry_cons] at h
    by_cases hp : p.1 = k
    · simp [hp] at h
    · have hne : (p.1 == k) = false := by simp [hp]
      simp only [hp, if_false] at h
      simp [setEntry, hne, ih h]

theorem findEntry_append (m1 m2 : EntrySet) (k : String) :
    findEntry (m1 ++ m2) k =
      match findEntry m1 k with
      | some v => some v
      | none => findEntry m2 k := by
  induction m1 with
  | nil => simp [findEntry_nil]
  | cons p rest ih =>
    by_cases hp : p.1 = k
    · simp [List.cons_append, findEntry_cons, hp]
    · simp [List.cons_append, findEntry_cons, hp, ih]

theorem mapFromSupabase_foldl (now : Nat) (data : List SupabaseRow) (acc : EntrySet)
    (hn : (data.map SupabaseRow.id).Nodup)
    (hd : ∀ row ∈ data, findEntry acc row.id = none) :
    data.foldl (fun a row => setEntry a row.id (mapRow now row)) acc
      = acc ++ data.map (fun row => (row.id, mapRow now row)) := by
  induction data generalizing acc with
  | nil => simp
  | cons row rest ih =>
    rw [List.map_cons, List.nodup_cons] at hn
    rw [List.foldl_cons, setEntry_of_findEntry_none acc row.id _ (hd row (by simp))]
    rw [ih _ hn.2 ?_]
    · simp
    · intro r2 hr2
      rw [findEntry_append, hd r2 (by simp [hr2])]
      have hne : ¬ row.id = r2.id := fun hid =>
        hn.1 (hid ▸ List.mem_map_of_mem SupabaseRow.id hr2)
      simp [findEntry_cons, findEntry_nil, hne]

theorem mapFromSupabase_eq (now : Nat) (data : List SupabaseRow)
    (hn : (data.map SupabaseRow.id).Nodup) :
    mapFromSupabase now data = data.map (fun row => (row.id, mapRow now row)) := by
  rw [mapFromSupabase, mapFromSupabase_foldl now data [] hn (fun _ _ => rfl)]
  simp

/-- Claim C1: merge starts from a copy of the local set; a remote entry r with
local counterpart l = local[r.id] lands in the result exactly when l is absent
or r.updatedAt > l.updatedAt, otherwise l is kept (ties keep local); keys not
mentioned by the remote list keep their local entry, so nothing local-only is
removed. The remote ids are distinct, as the remote list is the value list of
a Record keyed by id. -/
theorem merge_last_writer_wins (l : EntrySet) (r : List DiaryEntry) (e : DiaryEntry)
    (k : String) (hn : (r.map DiaryEntry.id).Nodup) (he : e ∈ r)
    (hk : ∀ e2 ∈ r, e2.id ≠ k) :
    findEntry (mergeEntries l r) e.id =
      some (match findEntry l e.id with
            | none => e
            | some le => if le.updatedAt < e.updatedAt then e else le)
    ∧ findEntry (mergeEntries l r) k = findEntry l k :=
  ⟨findEntry_mergeEntries_mem r l e he hn, findEntry_mergeEntries_not_mem r l k hk⟩

/-- Witness for C1: on the sample sets, the strictly newer remote A replaces
the local A, the tied remote C loses to the local C, and the local-only key D
is untouched. -/
theorem merge_last_writer_wins_witness :
    (findEntry (mergeEntries localSample remoteSample) "A"
        = some ⟨"A", "2024-01-02", "remote-a", [], 200⟩
      ∧ findEntry (mergeEntries localSample remoteSample) "D"
        = findEntry localSample "D")
    ∧ findEntry (mergeEntries localSample remoteSample) "C"
        = some ⟨"C", "2024-01-01", "local-c", [], 100⟩ := by
  refine ⟨⟨?_, ?_⟩, ?_⟩
  · exact (merge_last_writer_wins localSample remoteSample
      ⟨"A", "2024-01-02", "remote-a", [], 200⟩ "D" (by decide) (by decide) (by decide)).1
  · exact (merge_last_writer_wins localSample remoteSample
      ⟨"A", "2024-01-02", "remote-a", [], 200⟩ "D" (by decide) (by decide) (by decide)).2
  · exact (merge_last_writer_wins localSample remoteSample
      ⟨"C", "2024-01-02", "remote-c", [], 100⟩ "D" (by decide) (by decide) (by decide)).1

/-- Claim C7: merge is idempotent in its remote argument. -/
theorem merge_idempotent (l : EntrySet) (r : List DiaryEntry) :
    mergeEntries (mergeEntries l r) r = mergeEntries l r :=
  mergeEntries_eq_self _ r (fun e he => findEntry_mergeEntries_ge_mem r l e he)

/-- Claim C10: a remote row whose updated_at is absent, null, or 0 is mapped
with updatedAt = the current time `now`; hence when a local entry with the
same id has updatedAt earlier than `now`, the merge of the mapped rows
replaces the local entry with the remote one. -/
theorem mapFromSupabase_falsy_updated_at_wins (now : Nat) (data : List SupabaseRow)
    (row : SupabaseRow) (l : EntrySet) (le : DiaryEntry)
    (hrow : row ∈ data) (hn : (data.map SupabaseRow.id).Nodup)
    (hu : row.updated_at = none ∨ row.updated_at = some 0)
    (hle : findEntry l row.id = some le) (hlt : le.updatedAt < now) :
    (mapRow now row).updatedAt = now
    ∧ findEntry (mergeEntries l ((mapFromSupabase now data).map Prod.snd)) row.id
        = some (mapRow now row) := by
  have hnow : (mapRow now row).updatedAt = now := by
    rcases hu with h | h <;> simp [mapRow, h]
  refine ⟨hnow, ?_⟩
  rw [mapFromSupabase_eq now data hn]
  have hvals : (data.map (fun r2 => (r2.id, mapRow now r2))).map Prod.snd
      = data.map (mapRow now) := by
    simp [List.map_map]
  rw [hvals]
  have hids : ((data.map (mapRow now)).map DiaryEntry.id).Nodup := by
    have hmm : (data.map (mapRow now)).map DiaryEntry.id = data.map SupabaseRow.id := by
      simp [List.map_map]
      exact fun a _ => rfl
    rw [hmm]
    exact hn
  have hmem : mapRow now row ∈ data.map (mapRow now) := List.mem_map_of_mem _ hrow
  show findEntry (mergeEntries l (data.map (mapRow now))) (mapRow now row).id
      = some (mapRow now row)
  rw [findEntry_mergeEntries_mem _ l (mapRow now row) hmem hids]
  have hle2 : findEntry l (mapRow now row).id = some le := hle
  rw [hle2, hnow]
  simp [hlt]

/-- Witness for C10: a single remote row for id A with updated_at = 0, mapped
at now = 100, beats a local A entry with updatedAt = 50. -/
theorem mapFromSupabase_falsy_updated_at_wins_witness :
    (mapRow 100 ⟨"A", "2024-01-01", "x", none, some 0⟩).updatedAt = 100
    ∧ findEntry (mergeEntries [("A", ⟨"A", "2024-01-01", "old", [], 50⟩)]
        ((mapFromSupabase 100 [⟨"A", "2024-01-01", "x", none, some 0⟩]).map Prod.snd)) "A"
        = some (mapRow 100 ⟨"A", "2024-01-01", "x", none, some 0⟩) :=
  mapFromSupabase_falsy_updated_at_wins 100 [⟨"A", "2024-01-01", "x", none, some 0⟩]
    ⟨"A", "2024-01-01", "x", none, some 0⟩
    [("A", ⟨"A", "2024-01-01", "old", [], 50⟩)] ⟨"A", "2024-01-01", "old", [], 50⟩
    (by decide) (by decide) (Or.inr rfl) (by decide) (by decide)

theorem effSize_spanInfo (inh size : Nat) : effSize inh (spanInfo size) = size := rfl

theorem effSize_cleanInfo (inh : Nat) (i : ElemInfo) :
    effSize inh { i with styleFontSize := none,
                         sizeAttr := if i.tag = "FONT" then none else i.sizeAttr } = inh := by
  by_cases h : i.tag = "FONT"
  · simp [effSize, h]
  · cases hs : i.sizeAttr <;> simp [effSize, h, hs]

mutual
theorem clean_plain_node (n : DomNode) : plainNode (cleanNode n) = plainNode n := by
  cases n with
  | text s => rfl
  | elem i cs => simpa [cleanNode, plainNode] using clean_plain_list cs
theorem clean_plain_list (l : List DomNode) : plainList (cleanList l) = plainList l := by
  cases l with
  | nil => rfl
  | cons c cs => simp [cleanList, plainList, clean_plain_node c, clean_plain_list cs]
end

mutual
theorem clean_render_node (inh : Nat) (n : DomNode) :
    renderNode inh (cleanNode n) = (plainNode n).map (fun c => (c, inh)) := by
  cases n with
  | text s => rfl
  | elem i cs =>
    show renderList (effSize inh _) (cleanList cs) = (plainList cs).map (fun c => (c, inh))
    rw [effSize_cleanInfo inh i]
    exact clean_render_list inh cs
theorem clean_render_list (inh : Nat) (l : List DomNode) :
    renderList inh (cleanList l) = (plainList l).map (fun c => (c, inh)) := by
  cases l with
  | nil => rfl
  | cons c cs =>
    simp [cleanList, renderList, plainList, clean_render_node inh c,
      clean_render_list inh cs]
end

mutual
theorem clean_sizeFree_node (n : DomNode) : sizeFreeNode (cleanNode n) = true := by
  cases n with
  | text s => rfl
  | elem i cs =>
    simp only [cleanNode, sizeFreeNode, clean_sizeFree_list cs, Bool.and_true]
    by_cases h : i.tag = "FONT" <;> simp [infoSizeFree, h]
theorem clean_sizeFree_list (l : List DomNode) : sizeFreeList (cleanList l) = true := by
  cases l with
  | nil => rfl
  | cons c cs =>
    simp [cleanList, sizeFreeList, clean_sizeFree_node c, clean_sizeFree_list cs]
end

mutual
theorem apply_plain_node (size : Nat) (n : DomNode) :
    plainNode (applyMarked size n) = plainNode n := by
  cases n with
  | text s => rfl
  | elem i cs =>
    by_cases hm : i.marker
    · simp [applyMarked, hm, plainNode, clean_plain_list cs]
    · simp [applyMarked, hm, plainNode, apply_plain_list size cs]
theorem apply_plain_list (size : Nat) (l : List DomNode) :
    plainList (applyMarkedList size l) = plainList l := by
  cases l with
  | nil => rfl
  | cons c cs =>
    simp [applyMarkedList, plainList, apply_plain_node size c, apply_plain_list size cs]
end

theorem map_pair_fst {α β : Type} (b : β) (s : List α) :
    (s.map (fun c => (c, b))).map Prod.fst = s := by
  induction s with
  | nil => rfl
  | cons a t ih => simp [ih]

mutual
theorem render_fst_node (inh : Nat) (n : DomNode) :
    (renderNode inh n).map Prod.fst = plainNode n := by
  cases n with
  | text s => exact map_pair_fst inh s
  | elem i cs =>
    show (renderList (effSize inh i) cs).map Prod.fst = plainList cs
    exact render_fst_list (effSize inh i) cs
theorem render_fst_list (inh : Nat) (l : List DomNode) :
    (renderList inh l).map Prod.fst = plainList l := by
  cases l with
  | nil => rfl
  | cons c cs =>
    simp [renderList, plainList, render_fst_node inh c, render_fst_list inh cs]
end

theorem render_length_node (inh : Nat) (n : DomNode) :
    (renderNode inh n).length = (plainNode n).length := by
  rw [← render_fst_node inh n, List.length_map]

theorem render_length_list (inh : Nat) (l : List DomNode) :
    (renderList inh l).length = (plainList l).length := by
  rw [← render_fst_list inh l, List.length_map]

mutual
theorem selMask_length_node (b : Bool) (n : DomNode) :
    (selMaskNode b n).length = (plainNode n).length := by
  cases n with
  | text s => simp [selMaskNode, plainNode]
  | elem i cs =>
    show (selMaskList (b || i.marker) cs).length = (plainList cs).length
    exact selMask_length_list (b || i.marker) cs
theorem selMask_length_list (b : Bool) (l : List DomNode) :
    (selMaskList b l).length = (plainList l).length := by
  cases l with
  | nil => rfl
  | cons c cs =>
    simp [selMaskList, plainList, selMask_length_node b c, selMask_length_list b cs]
end

mutual
theorem selMask_true_node (n : DomNode) :
    selMaskNode true n = List.replicate (plainNode n).length true := by
  cases n with
  | text s => simp [selMaskNode, plainNode, List.map_const']
  | elem i cs =>
    show selMaskList (true || i.marker) cs = List.replicate (plainList cs).length true
    rw [Bool.true_or]
    exact selMask_true_list cs
theorem selMask_true_list (l : List DomNode) :
    selMaskList true l = List.replicate (plainList l).length true := by
  cases l with
  | nil => rfl
  | cons c cs =>
    show selMaskNode true c ++ selMaskList true cs
        = List.replicate (plainNode c ++ plainList cs).length true
    rw [selMask_true_node c, selMask_true_list cs, List.length_append,
      List.replicate_add]
end

theorem zipWith_restyle_true (size : Nat) (rl : List (Char × Nat)) :
    List.zipWith (restyleAt size) rl (List.replicate rl.length true)
      = rl.map (fun p => (p.1, size)) := by
  induction rl with
  | nil => rfl
  | cons p ps ih => simp [List.replicate_succ, restyleAt, ih]

theorem zipWith_restyle_false (size : Nat) (rl : List (Char × Nat)) (n : Nat)
    (h : rl.length = n) :
    List.zipWith (restyleAt size) rl (List.replicate n false) = rl := by
  subst h
  induction rl with
  | nil => rfl
  | cons p ps ih => simp [List.replicate_succ, restyleAt, ih]

mutual
theorem apply_render_node (size inh : Nat) (n : DomNode) :
    renderNode inh (applyMarked size n)
      = List.zipWith (restyleAt size) (renderNode inh n) (selMaskNode false n) := by
  cases n with
  | text s =>
    show s.map (fun c => (c, inh))
        = List.zipWith (restyleAt size) (s.map (fun c => (c, inh))) (s.map (fun _ => false))
    rw [List.map_const']
    rw [zipWith_restyle_false size _ s.length (by simp)]
  | elem i cs =>
    by_cases hm : i.marker
    · show renderNode inh (if i.marker then DomNode.elem (spanInfo size) (cleanList cs)
          else DomNode.elem i (applyMarkedList size cs))
          = List.zipWith (restyleAt size) (renderList (effSize inh i) cs)
              (selMaskList (false || i.marker) cs)
      rw [hm, if_pos rfl, Bool.false_or]
      show renderList (effSize inh (spanInfo size)) (cleanList cs)
          = List.zipWith (restyleAt size) (renderList (effSize inh i) cs) (selMaskList true cs)
      rw [effSize_spanInfo, clean_render_list, selMask_true_list,
        ← render_length_list (effSize inh i) cs, zipWith_restyle_true]
      have hcomp : (plainList cs).map (fun c => (c, size))
          = ((renderList (effSize inh i) cs).map Prod.fst).map (fun c => (c, size)) := by
        rw [render_fst_list]
      rw [hcomp, List.map_map]
      rfl
    · show renderNode inh (if i.marker then DomNode.elem (spanInfo size) (cleanList cs)
          else DomNode.elem i (applyMarkedList size cs))
          = List.zipWith (restyleAt size) (renderList (effSize inh i) cs)
              (selMaskList (false || i.marker) cs)
      rw [if_neg hm, Bool.false_or, (by simp [hm] : i.marker = false)]
      show renderList (effSize inh i) (applyMarkedList size cs)
          = List.zipWith (restyleAt size) (renderList (effSize inh i) cs) (selMaskList false cs)
      exact apply_render_list size (effSize inh i) cs
theorem apply_render_list (size inh : Nat) (l : List DomNode) :
    renderList inh (applyMarkedList size l)
      = List.zipWith (restyleAt size) (renderList inh l) (selMaskList false l) := by
  cases l with
  | nil => rfl
  | cons c cs =>
    show renderNode inh (applyMarked size c) ++ renderList inh (applyMarkedList size cs)
        = List.zipWith (restyleAt size) (renderNode inh c ++ renderList inh cs)
            (selMaskNode false c ++ selMaskList false cs)
    rw [List.zipWith_append _ _ _ _ _
      (by rw [render_length_node, selMask_length_node])]
    rw [apply_render_node size inh c, apply_render_list size inh cs]
end

/-- Claim C2: applying a font size to a non-collapsed (range) selection —
modelled by the marker elements execCommand wrapped exactly around the
normalized selection — keeps the plain text unchanged, renders every
character inside the selection at the new size, and leaves every character
outside the selection at the size it rendered at before. -/
theorem applyFontSize_range_isolation (size inh : Nat) (d : List DomNode)
    (h : noNestedList false d = true) :
    plainList (applyMarkedList size d) = plainList d
    ∧ renderList inh (applyMarkedList size d)
        = List.zipWith (restyleAt size) (renderList inh d) (selMaskList false d) :=
  ⟨apply_plain_list size d, apply_render_list size inh d⟩

/-- Witness for C2: the spec's "Hello world" example — size 24 applied to the
selected "world" at inherited size 16. -/
theorem applyFontSize_range_isolation_witness :
    noNestedList false helloDoc = true
    ∧ (plainList (applyMarkedList 24 helloDoc) = plainList helloDoc
       ∧ renderList 16 (applyMarkedList 24 helloDoc)
           = List.zipWith (restyleAt 24) (renderList 16 helloDoc)
               (selMaskList false helloDoc)) :=
  ⟨by decide, applyFontSize_range_isolation 24 16 helloDoc (by decide)⟩

/-- Claim C4: a marker element is replaced by the new style container (a span
carrying fontSize = size) whose children have every font size stripped by
cleanChildren — inline font-size styles cleared and FONT size attributes
removed, recursively — so the cleaned content renders entirely at the size it
now inherits from the new container, and no stale size overrides it. -/
theorem applyFontSize_strips_nested_sizes (size inh : Nat) (i : ElemInfo)
    (cs : List DomNode) (hm : i.marker = true) :
    applyMarked size (DomNode.elem i cs) = DomNode.elem (spanInfo size) (cleanList cs)
    ∧ sizeFreeList (cleanList cs) = true
    ∧ renderList inh (cleanList cs) = (plainList cs).map (fun c => (c, inh)) := by
  refine ⟨?_, clean_sizeFree_list cs, clean_render_list inh cs⟩
  simp [applyMarked, hm]

/-- Witness for C4: the spec's example — "world" previously styled at 18,
restyled at 24: the marker content is cleaned size-free and renders at the
inherited 24, not the stale 18. -/
theorem applyFontSize_strips_nested_sizes_witness :
    applyMarked 24 (DomNode.elem ⟨"FONT", none, none, true⟩ [worldStyled18])
        = DomNode.elem (spanInfo 24) (cleanList [worldStyled18])
    ∧ sizeFreeList (cleanList [worldStyled18]) = true
    ∧ renderList 24 (cleanList [worldStyled18])
        = (plainList [worldStyled18]).map (fun c => (c, 24)) :=
  applyFontSize_strips_nested_sizes 24 24 ⟨"FONT", none, none, true⟩ [worldStyled18] rfl

theorem renderList_append (inh : Nat) (l1 l2 : List DomNode) :
    renderList inh (l1 ++ l2) = renderList inh l1 ++ renderList inh l2 := by
  induction l1 with
  | nil => rfl
  | cons c cs ih => simp [renderList, ih]

/-- Claim C5: at a collapsed selection, applyFontSize sets the process-wide
editorFontSize default to the new size, inserts a zero-width marker run
carrying fontSizePx = size at the caret, puts the caret right after the
zero-width character inside that run, and so the next typed character renders
at the new size while the text before and after the caret renders exactly as
before. -/
theorem applyFontSize_collapsed_sticky (size inh : Nat) (c : Char)
    (st : CollapsedEditor) :
    (applyFontSizeCollapsed size st).settings
        = { st.settings with editorFontSize := size }
    ∧ (applyFontSizeCollapsed size st).focusStyle = some size
    ∧ (applyFontSizeCollapsed size st).focusLeft = [zwsp]
    ∧ (applyFontSizeCollapsed size st).focusRight = []
    ∧ (applyFontSizeCollapsed size st).before = st.before
    ∧ (applyFontSizeCollapsed size st).after = st.after
    ∧ renderList inh (appliedDoc (applyFontSizeCollapsed size st))
        = renderList inh st.before ++ [(zwsp, size)] ++ renderList inh st.after
    ∧ renderList inh (appliedDoc (typeChar c (applyFontSizeCollapsed size st)))
        = renderList inh st.before ++ [(zwsp, size), (c, size)] ++ renderList inh st.after := by
  refine ⟨rfl, rfl, rfl, rfl, rfl, rfl, ?_, ?_⟩
  · simp [appliedDoc, applyFontSizeCollapsed, renderList_append, renderList,
      renderNode, effSize]
  · simp [appliedDoc, applyFontSizeCollapsed, typeChar, renderList_append,
      renderList, renderNode, effSize]

/-- Counterexample to claim C6 as stated: the editor is mounted and the live
selection is a collapsed caret that resolves outside the editor document;
applyFontSize passes its guard (selection present, rangeCount > 0, editor
mounted — it performs no in-editor check) and the collapsed branch still
updates the editorFontSize setting from 16 to 20, so the operation is not a
no-op on the settings. -/
theorem applyFontSize_outside_caret_counterexample :
    caretOutsideState.sel = SelObservation.collapsedSel false
    ∧ caretOutsideState.settings.editorFontSize = 16
    ∧ (applyFontSizeStep 20 caretOutsideState).settings.editorFontSize = 20 :=
  ⟨rfl, rfl, rfl⟩

/-- Claim C6 (amended): when the selection is absent, has no range, or the
editor element is not mounted, applyFontSize is a complete no-op — document,
caret, settings, and toolbar state all unchanged. (A selection that is
present but anchored outside the editor is not detected: its collapsed
branch still updates the editorFontSize setting and inserts the marker span
at the outside caret, per the counterexample.) -/
theorem applyFontSize_guard_noop (size : Nat) (st : AppState)
    (h : st.sel = SelObservation.noSelection ∨ st.editorMounted = false) :
    applyFontSizeStep size st = st := by
  rcases h with h | h
  · cases hm : st.editorMounted <;> simp [applyFontSizeStep, h, hm]
  · simp [applyFontSizeStep, h]

/-- Witness for the amended C6: both guard cases — no usable selection, and
editor not mounted — leave the state untouched. -/
theorem applyFontSize_guard_noop_witness :
    applyFontSizeStep 20 { caretOutsideState with sel := SelObservation.noSelection }
        = { caretOutsideState with sel := SelObservation.noSelection }
    ∧ applyFontSizeStep 20 { caretOutsideState with editorMounted := false }
        = { caretOutsideState with editorMounted := false } :=
  ⟨applyFontSize_guard_noop 20 _ (Or.inl rfl), applyFontSize_guard_noop 20 _ (Or.inr rfl)⟩

theorem syncStep_disabled (cfg : Bool) (op : SyncOp) :
    syncStep cfg true op = (true, false) := by
  cases op <;> simp [syncStep]

theorem runSync_disabled (cfg : Bool) (ops : List SyncOp) :
    runSync cfg true ops = (true, List.replicate ops.length false) := by
  induction ops with
  | nil => rfl
  | cons op rest ih =>
    simp [runSync, syncStep_disabled cfg op, ih, List.replicate_succ]

/-- Claim C3: a SchemaMissing outcome on a fetch sets the
remote-sync-disabled flag; once the flag is set, every further
fetch-and-merge, upsert and delete call in the session issues no network
request, the flag survives every call unchanged (monotonic, never reset),
and nothing in the module writes it back to false. -/
theorem circuit_breaker (cfg : Bool) (ops : List SyncOp) :
    (syncStep true false (SyncOp.fetchMerge (some RemoteError.schemaMissing))).1 = true
    ∧ (runSync cfg true ops).1 = true
    ∧ (runSync cfg true ops).2 = List.replicate ops.length false :=
  ⟨rfl, by rw [runSync_disabled], by rw [runSync_disabled]⟩

/-- Claim C8: at the debounce deadline (with the editor mounted), a save is
issued exactly when the editor HTML differs from the stored entry's content
under the current date key (an absent entry counts as the empty string): on
byte-identical content no store write happens and the entry set is returned
unchanged; otherwise handleSave runs — the local write, with the remote
write attempted exactly when a session exists. -/
theorem autosave_noop_suppression (now : Nat) (key html : String)
    (entries : EntrySet) (sess : Bool) :
    autosaveDeadline now key html true entries sess =
      if html = ((findEntry entries key).map DiaryEntry.content).getD "" then
        (entries, false, false)
      else
        (setEntry entries key
          { id := key, date := key, content := html, tags := [], updatedAt := now },
         true, sess) := by
  by_cases h : html = ((findEntry entries key).map DiaryEntry.content).getD ""
  · simp [autosaveDeadline, handleSave, h]
  · simp [autosaveDeadline, handleSave, h]

/-- Claim C9: every save built by the editor carries an empty tags list: the
entry handleSave stores under the date key has tags = [], and the autosave
deadline either leaves the stored set untouched or stores an entry with
tags = [] under the date key — any tags the entry carried before are
discarded. -/
theorem saves_discard_tags (now : Nat) (key html : String) (entries : EntrySet)
    (sess mounted : Bool) :
    findEntry (handleSave now key html entries) key
        = some { id := key, date := key, content := html, tags := [], updatedAt := now }
    ∧ ((autosaveDeadline now key html mounted entries sess).1 = entries
       ∨ findEntry (autosaveDeadline now key html mounted entries sess).1 key
           = some { id := key, date := key, content := (if mounted then html else ""),
                    tags := [], updatedAt := now }) := by
  constructor
  · rw [handleSave, findEntry_setEntry]
    simp
  · by_cases hm : mounted
    · by_cases h : html = ((findEntry entries key).map DiaryEntry.content).getD ""
      · left
        simp [autosaveDeadline, hm, h]
      · right
        simp [autosaveDeadline, hm, h, handleSave, findEntry_setEntry]
    · left
      simp [autosaveDeadline, hm]
